import Mathlib

/-!
Shallow embedding of the quiz-session engine of `src/src/main.rs`
(vocabulary-drill application).  The session controller (`App` with
`init`, `correct`, `next` and `update`) is translated from the source.
Rust `f32` scores are modelled as `ℚ`; the shuffle done with
`rand::thread_rng` is modelled as an explicit oracle
`σ : List Entry → List Entry`, assumed to be a permutation where a claim
needs it.  A Rust panic (the `unwrap` of a `None` cursor, or an
out-of-range index) is modelled by `Option`: `none` means the process
panicked.  The answer grader `Entry::correct` and the types `Entry`,
`Lang`, `GramClass` live in the `grammar` crate, which is not part of
the sources given; they are modelled from the spec (section 4.2) where
so marked.
-/

namespace ULang

/-- Language label, `grammar::Lang` (constructed from strings in the source). -/
abbrev Lang := String

/-- `grammar::GramClass`: the closed set of grammatical categories. -/
inductive GramClass
  | Adverb
  | Noun
  | Verb
deriving DecidableEq

/-- Modelled from the spec: `grammar::Entry` — one vocabulary item,
a term per language slot plus its grammatical class (spec section 3). -/
structure Entry where
  term0 : String
  term1 : String
  cls : GramClass
deriving DecidableEq

/-- Modelled from the spec: `grammar::Entry::get` — term lookup by
language slot (slot 0 or 1). -/
def Entry.get (e : Entry) (slot : Nat) : String :=
  if slot = 0 then e.term0 else e.term1

/-- The error taxonomy of `main.rs` (`enum Error`). -/
inductive Error
  | IoError
  | DialogClosed
  | ParseError
deriving DecidableEq

/-- The session states of `main.rs` (`enum State`). -/
inductive State
  | Correcting
  | WaitUserAnswer
  | End
deriving DecidableEq

/-! ### Whitespace trimming (Rust `str::trim`), on the character list -/

/-- Remove leading and trailing whitespace characters: the model of
Rust `str::trim`. -/
def trimList (l : List Char) : List Char :=
  (l.dropWhile Char.isWhitespace).rdropWhile Char.isWhitespace

/-- Rust `str::trim` on strings. -/
def trim (s : String) : String :=
  String.mk (trimList s.data)

/-! ### The answer grader, modelled from the spec -/

/-- Case normalization (spec section 4.2 step 2): lowercase every
character. -/
def normalizeCase (s : String) : String :=
  String.mk (s.data.map Char.toLower)

/-- The space character. -/
def spaceChar : Char := Char.ofNat 32

/-- Split a character list at its first space: the part before and the
part after, or nothing when there is no space. -/
def splitAtSpace : List Char → Option (List Char × List Char)
  | [] => none
  | c :: cs =>
    if c = spaceChar then some ([], cs)
    else
      match splitAtSpace cs with
      | none => none
      | some (m, r) => some (c :: m, r)

/-- Modelled from the spec: the class-specific structural marker of an
expected term (a noun's leading article, a verb's infinitive marker):
the part before the first space, when both the marker and the remaining
stem are non-empty (spec section 4.2 step 3). -/
def splitMarker (s : String) : Option (String × String) :=
  match splitAtSpace s.data with
  | none => none
  | some (m, r) => if m = [] ∨ r = [] then none else some (String.mk m, String.mk r)

/-- Modelled from the spec: `grammar::Entry::correct`, the answer grader
of section 4.2 (the `grammar` crate is not among the given sources).
Step 1: trim the raw answer; step 2: normalized (case-insensitive)
equality with the expected term of the target slot scores 1; step 3:
for classes with a structural marker (Noun, Verb), an answer missing
only the marker earns partial credit 1/2, and an answer with the
correct marker but a wrong stem, or a wrong marker but the correct
stem, earns 1/4, strictly lower still; step 4: anything else scores 0.
The numeric constants 1/2 and 1/4 are a deliberate choice the spec
leaves open; only the ordering 1 > missing-marker > wrong-part > 0 is
contractual. -/
def Entry.correct (e : Entry) (answer : String) (slot : Nat) (_lang : Lang) : ℚ :=
  if normalizeCase (trim answer) = normalizeCase (e.get slot) then 1
  else
    match e.cls with
    | GramClass.Adverb => 0
    | _ =>
      match splitMarker (normalizeCase (e.get slot)) with
      | none => 0
      | some (m, stem) =>
        if normalizeCase (trim answer) = stem then 1/2
        else
          match splitMarker (normalizeCase (trim answer)) with
          | none => 0
          | some (m2, stem2) => if m2 = m ∨ stem2 = stem then 1/4 else 0

/-! ### The application state and messages (`main.rs`) -/

/-- The `App` struct of `main.rs`.  `f32` fields are modelled as `ℚ`,
`PathBuf` as `String`, the two-element array `langs` as a pair
(Rust `langs[0]` is `.1`, `langs[1]` is `.2`), and `total_score:
(f32, usize)` as `ℚ × Nat` (Rust `.0` is `.1`, Rust `.1` is `.2`). -/
structure App where
  debug_layout : Bool
  content : List Entry
  current : Option Nat
  entry : String
  error : Option Error
  file : Option String
  langs : Lang × Lang
  state : State
  last_score : ℚ
  dark_theme : Bool
  total_score : ℚ × Nat
  font_size : ℚ
  spacing : ℚ
deriving DecidableEq

/-- The messages of `main.rs` that reach `App::update`.  The payload of
`FileOpened` is the parsed result delivered by `pick_file`. -/
inductive Message
  | DebugToggle
  | TextInputChanged (value : String)
  | OpenFile
  | FileOpened (result : Except Error (String × (Lang × Lang) × List Entry))
  | Correction
  | Next
  | Start
  | Enter
  | ThemeSelected
  | TextFontChanged (newSize : ℚ)
  | SpacingChanged (newSpacing : ℚ)

/-- The built-in default deck of `impl Default for App` in `main.rs`. -/
def defaultContent : List Entry :=
  [ ⟨"yes", "oui", GramClass.Adverb⟩,
    ⟨"no", "non", GramClass.Adverb⟩,
    ⟨"the work", "le travail", GramClass.Noun⟩,
    ⟨"the rust", "la rouille", GramClass.Noun⟩,
    ⟨"the solution", "la solution", GramClass.Noun⟩,
    ⟨"to rise", "s\x27élever", GramClass.Verb⟩ ]

/-- `impl Default for App` in `main.rs`: the default deck is shuffled
(here: the oracle `σ` applied) and the remaining fields are fixed. -/
def App.defaultApp (σ : List Entry → List Entry) : App :=
  let c := σ defaultContent
  { debug_layout := false
    total_score := (0, c.length)
    content := c
    current := some 0
    entry := ""
    error := none
    file := none
    langs := ("English", "French")
    state := State.WaitUserAnswer
    last_score := 0
    dark_theme := true
    font_size := 16
    spacing := 5 }

/-- `App::init` of `main.rs`: clear the answer buffer, reset the cursor
to 0, shuffle and install the given deck, reset the running total to
`(0, deck length)` and the last score to 0, and enter
`WaitUserAnswer`. -/
def App.init (σ : List Entry → List Entry) (content : List Entry) (s : App) : App :=
  let shuffled := σ content
  { s with
    entry := ""
    current := some 0
    content := shuffled
    total_score := (0, shuffled.length)
    last_score := 0
    state := State.WaitUserAnswer }

/-- `App::correct` of `main.rs`: grade the trimmed answer buffer against
the current entry (slot 0, language `langs[0]`), store the grade as
`last_score`, add it to the running total and enter `Correcting`.
`self.current.unwrap()` and the indexing `self.content[..]` panic when
the cursor is `None` or out of range: both panics are modelled as
`none`. -/
def App.correct (s : App) : Option App :=
  match s.current with
  | none => none
  | some i =>
    match s.content.get? i with
    | none => none
    | some e =>
      let score := e.correct (trim s.entry) 0 s.langs.1
      some { s with
        last_score := score
        total_score := (s.total_score.1 + score, s.total_score.2)
        state := State.Correcting }

/-- `App::next` of `main.rs`: clear the answer buffer; when the cursor
is on the last entry set it to `None` and enter `End`, otherwise move
it one entry forward and enter `WaitUserAnswer`; a `None` cursor is
left alone. -/
def App.next (s : App) : App :=
  match s.current with
  | some nb =>
    if nb + 1 = s.content.length then
      { s with entry := "", state := State.End, current := none }
    else
      { s with entry := "", state := State.WaitUserAnswer, current := some (nb + 1) }
  | none => { s with entry := "" }

/-- `App::update` of `main.rs`, with the returned `Command` dropped
(`pick_file` is the I/O collaborator; its completed result arrives as
`Message.FileOpened`).  `none` models a Rust panic inside the handler. -/
def App.update (σ : List Entry → List Entry) (s : App) (m : Message) : Option App :=
  match m with
  | Message.DebugToggle => some { s with debug_layout := !s.debug_layout }
  | Message.TextInputChanged value => some { s with entry := value }
  | Message.OpenFile => some s
  | Message.FileOpened result =>
    match result with
    | Except.ok (path, langs, content) =>
      some { App.init σ content { s with langs := langs } with
             file := some path, error := none }
    | Except.error Error.DialogClosed => some s
    | Except.error e => some { s with error := some e }
  | Message.Enter =>
    match s.state with
    | State.WaitUserAnswer => s.correct
    | State.Correcting => some s.next
    | State.End => some s
  | Message.Correction => s.correct
  | Message.Next => some s.next
  | Message.Start =>
    let s1 :=
      match s.file with
      | some _ => App.init σ s.content s
      | none => App.init σ (σ defaultContent) s
    some { s1 with state := State.WaitUserAnswer }
  | Message.ThemeSelected => some { s with dark_theme := !s.dark_theme }
  | Message.TextFontChanged newSize => some { s with font_size := newSize }
  | Message.SpacingChanged newSpacing => some { s with spacing := newSpacing }

/-! ### Instrumented runs: the scores submitted since the last (re)initialization -/

/-- The bookkeeping companion of one `App.update` step: the list of
grades computed by the `App::correct` calls since the last
(re)initialization.  A step that re-initializes (`Start`, or a
successful `FileOpened`) resets the list; a step that runs
`App::correct` (a `Correction` message, or `Enter` while awaiting an
answer) appends the grade it computed, which the stepped state `s1`
holds as `last_score`. -/
def stepAcc (s : App) (m : Message) (s1 : App) (acc : List ℚ) : List ℚ :=
  match m with
  | Message.Correction => acc ++ [s1.last_score]
  | Message.Enter =>
    if s.state = State.WaitUserAnswer then acc ++ [s1.last_score] else acc
  | Message.Start => []
  | Message.FileOpened (Except.ok _) => []
  | _ => acc

/-- Run a list of messages through `App.update`, carrying the list of
grades submitted since the last (re)initialization; `none` when some
step panicked. -/
def runScores (σ : List Entry → List Entry) :
    App → List ℚ → List Message → Option (App × List ℚ)
  | s, acc, [] => some (s, acc)
  | s, acc, m :: ms =>
    match App.update σ s m with
    | none => none
    | some s1 => runScores σ s1 (stepAcc s m s1 acc) ms

/-! ### Concrete session states used as evaluation inputs -/

/-- A session state with the given deck, cursor, answer buffer and
state, all remaining fields at their defaults. -/
def mkApp (content : List Entry) (cur : Option Nat) (buffer : String) (st : State) : App :=
  { debug_layout := false
    content := content
    current := cur
    entry := buffer
    error := none
    file := none
    langs := ("English", "French")
    state := st
    last_score := 0
    dark_theme := true
    total_score := (0, content.length)
    font_size := 16
    spacing := 5 }

/-- A Noun entry of the built-in deck, whose expected slot-0 term
carries the leading article marker. -/
def eNoun : Entry := ⟨"the work", "le travail", GramClass.Noun⟩

/-- An Adverb entry of the built-in deck. -/
def eYes : Entry := ⟨"yes", "oui", GramClass.Adverb⟩

/-- A finished session over an empty deck with no file ever loaded. -/
def sEnd0 : App := mkApp [] none "" State.End

/-- The session sEnd0 after a restart (under the identity shuffle). -/
def sRestarted : App := mkApp defaultContent (some 0) "" State.WaitUserAnswer

/-- A session awaiting an answer on a one-Noun deck, buffer holding a
surrounding-whitespace answer. -/
def sAwait : App := mkApp [eNoun] (some 0) " x " State.WaitUserAnswer

/-! ## Helper lemmas -/

/-- A trimmed character list starts with a non-whitespace character, so
dropping leading whitespace from it again changes nothing. -/
theorem dropWhile_trimList (l : List Char) :
    (trimList l).dropWhile Char.isWhitespace = trimList l := by
  rw [List.dropWhile_eq_self_iff]
  intro hl
  obtain ⟨t, ht⟩ :=
    List.rdropWhile_prefix Char.isWhitespace (l.dropWhile Char.isWhitespace)
  have hA : 0 < (l.dropWhile Char.isWhitespace).length := by
    rw [← ht, List.length_append]
    exact Nat.lt_of_lt_of_le hl (Nat.le_add_right _ _)
  have q3 : (trimList l)[0]? = (l.dropWhile Char.isWhitespace)[0]? := by
    rw [← ht]
    exact (List.getElem?_append_left hl).symm
  rw [List.getElem?_eq_getElem hl, List.getElem?_eq_getElem hA] at q3
  have q4 := Option.some.inj q3
  rw [List.get_eq_getElem, q4]
  have q5 := List.dropWhile_get_zero_not (p := Char.isWhitespace) l hA
  rwa [List.get_eq_getElem] at q5

/-- Trimming a character list twice is the same as trimming it once. -/
theorem trimList_idem (l : List Char) : trimList (trimList l) = trimList l := by
  show (((trimList l).dropWhile Char.isWhitespace).rdropWhile Char.isWhitespace) = trimList l
  rw [dropWhile_trimList]
  exact List.rdropWhile_idempotent Char.isWhitespace _

/-- Rust `str::trim` is idempotent. -/
theorem trim_idem (s : String) : trim (trim s) = trim s :=
  congrArg String.mk (trimList_idem s.data)

/-- Evaluation of `App::correct` when the cursor points at a valid
entry: the grade of the trimmed buffer is stored as the last score,
added to the running total, and the state becomes `Correcting`. -/
theorem App.correct_eq (s : App) (i : Nat) (e : Entry)
    (hcur : s.current = some i) (he : s.content.get? i = some e) :
    s.correct = some { s with
      last_score := e.correct (trim s.entry) 0 s.langs.1
      total_score :=
        (s.total_score.1 + e.correct (trim s.entry) 0 s.langs.1, s.total_score.2)
      state := State.Correcting } := by
  simp only [App.correct, hcur, he]

/-- App::next does not touch the deck or the running total. -/
theorem App.next_fields (s : App) :
    (App.next s).total_score = s.total_score ∧ (App.next s).content = s.content := by
  cases hc : s.current with
  | none => simp [App.next, hc]
  | some nb =>
    by_cases h : nb + 1 = s.content.length <;> simp [App.next, hc, h]

/-- One App::correct call adds exactly the grade it stores as
last_score to the running total and moves neither the deck nor the
count. -/
theorem correct_total (s s1 : App) (acc : List ℚ) (h : s.correct = some s1)
    (h0 : s.total_score.1 = acc.sum) (h1 : s.total_score.2 = s.content.length) :
    s1.total_score.1 = (acc ++ [s1.last_score]).sum
    ∧ s1.total_score.2 = s1.content.length := by
  simp only [App.correct] at h
  cases hc : s.current with
  | none => simp only [hc] at h; exact Option.noConfusion h
  | some i =>
    simp only [hc] at h
    cases he : s.content.get? i with
    | none => simp only [he] at h; exact Option.noConfusion h
    | some e =>
      simp only [he] at h
      obtain rfl := Option.some.inj h
      constructor
      · simp [h0]
      · simpa using h1

/-- One App.update step preserves the invariant tying the running total
to the grades submitted since the last (re)initialization. -/
theorem update_total (σ : List Entry → List Entry) (s : App) (m : Message) (s1 : App)
    (acc : List ℚ) (h : App.update σ s m = some s1)
    (h0 : s.total_score.1 = acc.sum) (h1 : s.total_score.2 = s.content.length) :
    s1.total_score.1 = (stepAcc s m s1 acc).sum
    ∧ s1.total_score.2 = s1.content.length := by
  cases m with
  | DebugToggle =>
    obtain rfl := Option.some.inj h
    exact ⟨h0, h1⟩
  | TextInputChanged v =>
    obtain rfl := Option.some.inj h
    exact ⟨h0, h1⟩
  | OpenFile =>
    obtain rfl := Option.some.inj h
    exact ⟨h0, h1⟩
  | ThemeSelected =>
    obtain rfl := Option.some.inj h
    exact ⟨h0, h1⟩
  | TextFontChanged x =>
    obtain rfl := Option.some.inj h
    exact ⟨h0, h1⟩
  | SpacingChanged x =>
    obtain rfl := Option.some.inj h
    exact ⟨h0, h1⟩
  | Correction => exact correct_total s s1 acc h h0 h1
  | Next =>
    obtain rfl := Option.some.inj h
    obtain ⟨ht, hc⟩ := App.next_fields s
    refine ⟨?_, ?_⟩
    · rw [ht]; exact h0
    · rw [ht, hc]; exact h1
  | Enter =>
    cases hst : s.state with
    | WaitUserAnswer =>
      simp only [App.update, hst] at h
      have hk := correct_total s s1 acc h h0 h1
      simpa [stepAcc, hst] using hk
    | Correcting =>
      simp only [App.update, hst] at h
      obtain rfl := Option.some.inj h
      obtain ⟨ht, hc⟩ := App.next_fields s
      refine ⟨?_, ?_⟩
      · rw [ht]; simpa [stepAcc, hst] using h0
      · rw [ht, hc]; exact h1
    | End =>
      simp only [App.update, hst] at h
      obtain rfl := Option.some.inj h
      refine ⟨?_, ?_⟩
      · simpa [stepAcc, hst] using h0
      · exact h1
  | Start =>
    cases hf : s.file with
    | none =>
      simp only [App.update, hf] at h
      obtain rfl := Option.some.inj h
      simp [stepAcc, App.init]
    | some p =>
      simp only [App.update, hf] at h
      obtain rfl := Option.some.inj h
      simp [stepAcc, App.init]
  | FileOpened r =>
    cases r with
    | ok a =>
      obtain ⟨path, langs, D⟩ := a
      simp only [App.update] at h
      obtain rfl := Option.some.inj h
      simp [stepAcc, App.init]
    | error e =>
      cases e with
      | DialogClosed =>
        simp only [App.update] at h
        obtain rfl := Option.some.inj h
        exact ⟨h0, h1⟩
      | IoError =>
        simp only [App.update] at h
        obtain rfl := Option.some.inj h
        exact ⟨h0, h1⟩
      | ParseError =>
        simp only [App.update] at h
        obtain rfl := Option.some.inj h
        exact ⟨h0, h1⟩

/-- The run-level invariant behind claim C6, proved by induction along
the message trace. -/
theorem runScores_invariant (σ : List Entry → List Entry) (msgs : List Message) :
    ∀ (s : App) (acc : List ℚ) (s1 : App) (acc1 : List ℚ),
      runScores σ s acc msgs = some (s1, acc1) →
      s.total_score.1 = acc.sum → s.total_score.2 = s.content.length →
      s1.total_score.1 = acc1.sum ∧ s1.total_score.2 = s1.content.length := by
  induction msgs with
  | nil =>
    intro s acc s1 acc1 h h0 h1
    simp only [runScores] at h
    obtain ⟨rfl, rfl⟩ := Prod.mk.injEq .. ▸ Option.some.inj h
    exact ⟨h0, h1⟩
  | cons m ms ih =>
    intro s acc s1 acc1 h h0 h1
    simp only [runScores] at h
    cases hu : App.update σ s m with
    | none => simp only [hu] at h; exact Option.noConfusion h
    | some s2 =>
      simp only [hu] at h
      obtain ⟨h0n, h1n⟩ := update_total σ s m s2 acc hu h0 h1
      exact ih s2 (stepAcc s m s2 acc) s1 acc1 h h0n h1n

/-! ## Claims -/

/-- C8: a completed load attempt that fails leaves the deck, cursor,
state, scores, answer buffer and file path of the session unchanged for
every failure kind, and sets the Error field to the failure exactly
when it is IoError or ParseError, while DialogClosed leaves the Error
field untouched (the update is the identity on the whole state in that
case, so a previously stored error is not overwritten). -/
theorem load_failure_spec (σ : List Entry → List Entry) (s : App) (e : Error) :
    App.update σ s (Message.FileOpened (Except.error e)) =
      some { s with error := if e = Error.DialogClosed then s.error else some e } := by
  cases e <;> rfl

/-- C9: a load that completes successfully with a parsed language pair
and entry list replaces the stored language labels, re-initializes the
session with a shuffled copy of the loaded entries (cursor 0, running
total `(0, new deck size)`, last score 0, cleared buffer, state
AwaitingAnswer), records the file path, and clears any previously
recorded load error. -/
theorem load_success_spec (σ : List Entry → List Entry) (s : App) (path : String)
    (langs : Lang × Lang) (D : List Entry) :
    App.update σ s (Message.FileOpened (Except.ok (path, langs, D))) =
      some { debug_layout := s.debug_layout
             content := σ D
             current := some 0
             entry := ""
             error := none
             file := some path
             langs := langs
             state := State.WaitUserAnswer
             last_score := 0
             dark_theme := s.dark_theme
             total_score := (0, (σ D).length)
             font_size := s.font_size
             spacing := s.spacing } := rfl

/-- C4: in Correcting, advance (Message.Next) clears the answer buffer
and either moves the cursor one entry forward into AwaitingAnswer (when
it is not on the last index) or sets it to none and enters Finished
(when it is); the deck and both scores are unchanged in both cases, as
the record updates show. -/
theorem advance_spec (σ : List Entry → List Entry) (s : App) (i : Nat)
    (hst : s.state = State.Correcting) (hcur : s.current = some i) :
    App.update σ s Message.Next =
      some (if i + 1 = s.content.length then
              { s with entry := "", state := State.End, current := none }
            else
              { s with entry := "", state := State.WaitUserAnswer,
                       current := some (i + 1) }) := by
  simp only [App.update, App.next, hcur]

/-- Witness for C4 at a concrete one-entry session in Correcting. -/
theorem advance_spec_witness :
    App.update id (mkApp [eNoun] (some 0) "trav" State.Correcting) Message.Next =
      some (if 0 + 1 = (mkApp [eNoun] (some 0) "trav" State.Correcting).content.length then
              { mkApp [eNoun] (some 0) "trav" State.Correcting with
                entry := "", state := State.End, current := none }
            else
              { mkApp [eNoun] (some 0) "trav" State.Correcting with
                entry := "", state := State.WaitUserAnswer, current := some (0 + 1) }) :=
  advance_spec id (mkApp [eNoun] (some 0) "trav" State.Correcting) 0 rfl rfl

/-- C1 counterexample: Message.Next received in AwaitingAnswer is not a
no-op — at this concrete state it clears the answer buffer, moves the
cursor and changes the state, so the updated session differs from the
original. -/
theorem next_in_awaiting_changes_state :
    App.update id (mkApp [eYes] (some 0) "x" State.WaitUserAnswer) Message.Next ≠
      some (mkApp [eYes] (some 0) "x" State.WaitUserAnswer) := by
  decide

/-- C1 (amended): only the Enter-key dispatcher guards the transitions
by state — Enter in Finished is a no-op on the whole session state,
Enter in AwaitingAnswer invokes grading (App.correct) and Enter in
Correcting invokes advancing (App.next); the direct messages
Message.Next and Message.Correction run next and correct
unconditionally in every state, so Next in AwaitingAnswer and
Correction in Correcting or Finished are not no-ops. -/
theorem enter_dispatch (σ : List Entry → List Entry) (s : App) :
    (s.state = State.End → App.update σ s Message.Enter = some s)
    ∧ (s.state = State.WaitUserAnswer → App.update σ s Message.Enter = s.correct)
    ∧ (s.state = State.Correcting → App.update σ s Message.Enter = some s.next) := by
  refine ⟨fun h => ?_, fun h => ?_, fun h => ?_⟩ <;> simp [App.update, h]

/-- Witness for C1 at three concrete sessions, one per state. -/
theorem enter_dispatch_witness :
    App.update id sEnd0 Message.Enter = some sEnd0
    ∧ App.update id (mkApp [eYes] (some 0) "" State.WaitUserAnswer) Message.Enter
        = (mkApp [eYes] (some 0) "" State.WaitUserAnswer).correct
    ∧ App.update id (mkApp [eYes] (some 0) "" State.Correcting) Message.Enter
        = some (App.next (mkApp [eYes] (some 0) "" State.Correcting)) :=
  ⟨(enter_dispatch id sEnd0).1 rfl,
   (enter_dispatch id (mkApp [eYes] (some 0) "" State.WaitUserAnswer)).2.1 rfl,
   (enter_dispatch id (mkApp [eYes] (some 0) "" State.Correcting)).2.2 rfl⟩

/-- C2 counterexample: a Message.Correction processed in Finished,
where the cursor is none, panics (App::correct unwraps the cursor);
the panic is modelled as none, so update is not total there. -/
theorem correction_in_finished_panics :
    App.update id (mkApp [eYes] none "" State.End) Message.Correction = none := rfl

/-- C2 (amended): App.update terminates normally on every message other
than a direct Message.Correction, provided the cursor is a valid index
whenever the state is AwaitingAnswer (which reachable states satisfy);
a direct Message.Correction with a none or out-of-range cursor — as in
Finished — is the one panicking exception. -/
theorem update_no_panic (σ : List Entry → List Entry) (s : App) (m : Message)
    (hc : s.state = State.WaitUserAnswer →
      ∃ i, s.current = some i ∧ i < s.content.length)
    (hm : m ≠ Message.Correction) :
    (App.update σ s m).isSome := by
  cases m with
  | Correction => exact absurd rfl hm
  | DebugToggle => simp [App.update]
  | TextInputChanged v => simp [App.update]
  | OpenFile => simp [App.update]
  | ThemeSelected => simp [App.update]
  | TextFontChanged x => simp [App.update]
  | SpacingChanged x => simp [App.update]
  | Next => simp [App.update]
  | Start => cases hf : s.file <;> simp [App.update, hf]
  | FileOpened r =>
    cases r with
    | ok a =>
      obtain ⟨path, langs, D⟩ := a
      simp [App.update]
    | error e => cases e <;> simp [App.update]
  | Enter =>
    cases hst : s.state with
    | Correcting => simp [App.update, hst]
    | End => simp [App.update, hst]
    | WaitUserAnswer =>
      obtain ⟨i, hi, hlen⟩ := hc hst
      simp [App.update, hst, App.correct, hi, List.getElem?_eq_getElem hlen]

/-- Witness for C2: a non-Correction message in Finished steps without
a panic. -/
theorem update_no_panic_witness :
    (App.update id (mkApp [eYes] none "" State.End) Message.Next).isSome :=
  update_no_panic id (mkApp [eYes] none "" State.End) Message.Next
    (fun h => absurd h (by decide)) (fun h => Message.noConfusion h)

/-- C3: in AwaitingAnswer, submit_answer (Message.Correction) grades
the trimmed answer buffer against the current entry, adds that grade to
the running total's sum, stores it as last_score and transitions to
Correcting; and the grade computed for a buffer holding any text equals
the grade computed for the same text with leading and trailing
whitespace removed (surrounding whitespace is never penalized). -/
theorem submit_answer_spec (σ : List Entry → List Entry) (s : App) (i : Nat)
    (e : Entry) (t : String) (hst : s.state = State.WaitUserAnswer)
    (hcur : s.current = some i) (he : s.content.get? i = some e) :
    App.update σ s Message.Correction =
      some { s with
        last_score := e.correct (trim s.entry) 0 s.langs.1
        total_score :=
          (s.total_score.1 + e.correct (trim s.entry) 0 s.langs.1, s.total_score.2)
        state := State.Correcting }
    ∧ (App.update σ { s with entry := t } Message.Correction).map App.last_score
        = (App.update σ { s with entry := trim t } Message.Correction).map App.last_score := by
  refine ⟨App.correct_eq s i e hcur he, ?_⟩
  show (({ s with entry := t } : App).correct).map App.last_score
      = (({ s with entry := trim t } : App).correct).map App.last_score
  rw [App.correct_eq { s with entry := t } i e hcur he,
      App.correct_eq { s with entry := trim t } i e hcur he]
  simp [trim_idem]

/-- Witness for C3 at a concrete awaiting session over a one-Noun deck. -/
theorem submit_answer_spec_witness :
    App.update id sAwait Message.Correction =
      some { sAwait with
        last_score := eNoun.correct (trim sAwait.entry) 0 sAwait.langs.1
        total_score :=
          (sAwait.total_score.1 + eNoun.correct (trim sAwait.entry) 0 sAwait.langs.1,
            sAwait.total_score.2)
        state := State.Correcting }
    ∧ (App.update id { sAwait with entry := " y " } Message.Correction).map App.last_score
        = (App.update id { sAwait with entry := trim " y " } Message.Correction).map App.last_score :=
  submit_answer_spec id sAwait 0 eNoun " y " rfl rfl rfl

/-- C5: restart (Message.Start, no new deck supplied) re-initializes
the session — cursor 0, running total `(0, deck size)`, last score 0,
cleared buffer, state AwaitingAnswer — and replaces the owned deck by a
reshuffled copy of the currently owned deck, or by (a shuffled copy of)
the built-in default deck when no file was ever loaded; the file path,
language labels and error field are untouched. -/
theorem restart_spec (σ : List Entry → List Entry) (hσ : ∀ l, (σ l).Perm l)
    (s s1 : App) (h : App.update σ s Message.Start = some s1) :
    s1.current = some 0 ∧ s1.total_score = (0, s1.content.length)
    ∧ s1.last_score = 0 ∧ s1.entry = "" ∧ s1.state = State.WaitUserAnswer
    ∧ s1.content.Perm
        (match s.file with | some _ => s.content | none => defaultContent)
    ∧ s1.file = s.file ∧ s1.langs = s.langs ∧ s1.error = s.error := by
  cases hf : s.file with
  | none =>
    simp only [App.update, hf] at h
    obtain rfl := Option.some.inj h
    refine ⟨rfl, rfl, rfl, rfl, rfl, ?_, hf, rfl, rfl⟩
    exact (hσ _).trans (hσ _)
  | some p =>
    simp only [App.update, hf] at h
    obtain rfl := Option.some.inj h
    refine ⟨rfl, rfl, rfl, rfl, rfl, ?_, hf, rfl, rfl⟩
    exact hσ _

/-- Witness for C5: restarting a finished session that never loaded a
file rebuilds it from the built-in default deck. -/
theorem restart_spec_witness :
    sRestarted.current = some 0
    ∧ sRestarted.total_score = (0, sRestarted.content.length)
    ∧ sRestarted.last_score = 0 ∧ sRestarted.entry = ""
    ∧ sRestarted.state = State.WaitUserAnswer
    ∧ sRestarted.content.Perm
        (match sEnd0.file with | some _ => sEnd0.content | none => defaultContent)
    ∧ sRestarted.file = sEnd0.file ∧ sRestarted.langs = sEnd0.langs
    ∧ sRestarted.error = sEnd0.error :=
  restart_spec id (fun l => List.Perm.refl l) sEnd0 sRestarted rfl

/-- C7: activating a deck D — through a successful load (FileOpened) or
through restart — installs a shuffle of it, and as long as the shuffle
oracle permutes its input, the installed entry sequence is a
permutation of D (for restart: of the current deck, or of the built-in
default deck when no file was ever loaded), so no entry is added,
dropped or duplicated. -/
theorem deck_activation_perm (σ : List Entry → List Entry)
    (hσ : ∀ l, (σ l).Perm l) (s s1 : App) :
    (∀ (path : String) (langs : Lang × Lang) (D : List Entry),
        App.update σ s (Message.FileOpened (Except.ok (path, langs, D))) = some s1 →
        s1.content.Perm D)
    ∧ (App.update σ s Message.Start = some s1 →
        s1.content.Perm
          (match s.file with | some _ => s.content | none => defaultContent)) := by
  constructor
  · intro path langs D h
    obtain rfl := Option.some.inj h
    exact hσ D
  · intro h
    cases hf : s.file with
    | none =>
      simp only [App.update, hf] at h
      obtain rfl := Option.some.inj h
      exact (hσ _).trans (hσ _)
    | some p =>
      simp only [App.update, hf] at h
      obtain rfl := Option.some.inj h
      exact hσ _

/-- Witness for C7: a concrete load of a one-entry deck and a concrete
restart of a session with no file. -/
theorem deck_activation_perm_witness :
    ({ mkApp [eYes] (some 0) "" State.WaitUserAnswer with file := some "p" }).content.Perm [eYes]
    ∧ sRestarted.content.Perm
        (match sEnd0.file with | some _ => sEnd0.content | none => defaultContent) :=
  ⟨(deck_activation_perm id (fun l => List.Perm.refl l) sEnd0
      { mkApp [eYes] (some 0) "" State.WaitUserAnswer with file := some "p" }).1
      "p" ("English", "French") [eYes] rfl,
   (deck_activation_perm id (fun l => List.Perm.refl l) sEnd0 sRestarted).2 rfl⟩

/-- C6: along any message trace from a (re)initialized session, the
running total's sum equals the sum of the individual last_score values
computed by the submit operations performed since that
(re)initialization (collected by runScores, which resets its list at
every re-initialization), and the running total's count equals the deck
size, independent of how many answers have been submitted. -/
theorem total_is_sum_of_submitted (σ : List Entry → List Entry) (c : List Entry)
    (s0 : App) (msgs : List Message) (s1 : App) (acc1 : List ℚ)
    (h : runScores σ (App.init σ c s0) [] msgs = some (s1, acc1)) :
    s1.total_score.1 = acc1.sum ∧ s1.total_score.2 = s1.content.length :=
  runScores_invariant σ msgs (App.init σ c s0) [] s1 acc1 h rfl rfl

/-- Witness for C6: one submitted answer followed by one advance on a
one-entry deck; the total is the sum of the single submitted grade and
the count stays the deck size. -/
theorem total_is_sum_of_submitted_witness :
    ({ mkApp [eYes] none "" State.End with
        total_score := ((0 : ℚ) + 0, 1) } : App).total_score.1 = List.sum [(0 : ℚ)]
    ∧ ({ mkApp [eYes] none "" State.End with
        total_score := ((0 : ℚ) + 0, 1) } : App).total_score.2 =
      ({ mkApp [eYes] none "" State.End with
        total_score := ((0 : ℚ) + 0, 1) } : App).content.length :=
  total_is_sum_of_submitted id [eYes] sEnd0 [Message.Correction, Message.Next]
    { mkApp [eYes] none "" State.End with total_score := ((0 : ℚ) + 0, 1) }
    [(0 : ℚ)] rfl

/-- C10: for a Noun or Verb entry whose expected term carries a
class-specific marker, an answer missing only the marker (the bare
stem) grades strictly between 0 and 1 — neither 0 nor 1 — while an
answer with the correct marker but a wrong stem, and an answer with a
wrong marker but the correct stem, each grade strictly lower still.
The normalization hypotheses say the candidate answers are already
trimmed and lowercase, as in the spec scenarios. -/
theorem class_marker_partial_credit (e : Entry) (lang : Lang)
    (m stem wrong m2 : String)
    (hc : e.cls ≠ GramClass.Adverb)
    (hsplit : splitMarker (normalizeCase (e.get 0)) = some (m, stem))
    (hstem_norm : normalizeCase (trim stem) = stem)
    (hstem_ne : stem ≠ normalizeCase (e.get 0))
    (hw_norm : normalizeCase (trim (m ++ " " ++ wrong)) = m ++ " " ++ wrong)
    (hw_split : splitMarker (m ++ " " ++ wrong) = some (m, wrong))
    (hw_ne_exp : m ++ " " ++ wrong ≠ normalizeCase (e.get 0))
    (hw_ne_stem : m ++ " " ++ wrong ≠ stem)
    (hm2_norm : normalizeCase (trim (m2 ++ " " ++ stem)) = m2 ++ " " ++ stem)
    (hm2_split : splitMarker (m2 ++ " " ++ stem) = some (m2, stem))
    (hm2_ne_exp : m2 ++ " " ++ stem ≠ normalizeCase (e.get 0))
    (hm2_ne_stem : m2 ++ " " ++ stem ≠ stem) :
    0 < e.correct stem 0 lang ∧ e.correct stem 0 lang < 1
    ∧ e.correct (m ++ " " ++ wrong) 0 lang < e.correct stem 0 lang
    ∧ e.correct (m2 ++ " " ++ stem) 0 lang < e.correct stem 0 lang := by
  have h1 : e.correct stem 0 lang = 1/2 := by
    cases hcls : e.cls with
    | Adverb => exact absurd hcls hc
    | Noun => simp [Entry.correct, hstem_norm, hcls, hsplit, hstem_ne]
    | Verb => simp [Entry.correct, hstem_norm, hcls, hsplit, hstem_ne]
  have h2 : e.correct (m ++ " " ++ wrong) 0 lang = 1/4 := by
    cases hcls : e.cls with
    | Adverb => exact absurd hcls hc
    | Noun =>
      simp [Entry.correct, hw_norm, hcls, hsplit, hw_ne_exp, hw_ne_stem, hw_split]
    | Verb =>
      simp [Entry.correct, hw_norm, hcls, hsplit, hw_ne_exp, hw_ne_stem, hw_split]
  have h3 : e.correct (m2 ++ " " ++ stem) 0 lang = 1/4 := by
    cases hcls : e.cls with
    | Adverb => exact absurd hcls hc
    | Noun =>
      simp [Entry.correct, hm2_norm, hcls, hsplit, hm2_ne_exp, hm2_ne_stem, hm2_split]
    | Verb =>
      simp [Entry.correct, hm2_norm, hcls, hsplit, hm2_ne_exp, hm2_ne_stem, hm2_split]
  rw [h1, h2, h3]
  norm_num

/-- Witness for C10: the Noun entry (the work, le travail); the answer
missing only the article scores between 0 and 1, and both one-part-wrong
answers score lower. -/
theorem class_marker_partial_credit_witness :
    0 < eNoun.correct "work" 0 "English"
    ∧ eNoun.correct "work" 0 "English" < 1
    ∧ eNoun.correct ("the" ++ " " ++ "wark") 0 "English" <
        eNoun.correct "work" 0 "English"
    ∧ eNoun.correct ("thy" ++ " " ++ "work") 0 "English" <
        eNoun.correct "work" 0 "English" :=
  class_marker_partial_credit eNoun "English" "the" "work" "wark" "thy"
    (by decide) (by decide) (by decide) (by decide) (by decide) (by decide)
    (by decide) (by decide) (by decide) (by decide) (by decide) (by decide)

end ULang
